import Mathlib

/-!
Verification of the `arm5_py_integration` template-generation module
(`Ars_Magica_5th/arm5_py_integration/__init__.py`).

The module is shallowly embedded: the process-wide alert registry (the
function attributes `alert.numid`, `alert.strid`,
`alert.has_disable_been_called`) becomes an explicit `AlertState` value
threaded through the functions, Python exceptions become an `Except`
error component, and the float arithmetic of the luma computation is
modelled as IEEE-754 binary64 over dyadic rationals (correctly rounded
operations, round half to even).  `textwrap.dedent` and `str.replace`
are modelled character-for-character over `List Char`.
-/

/-- Whitespace characters stripped by the margin computation of
`textwrap.dedent` (space and tab, as in CPython). -/
def isMarginWs (c : Char) : Bool := c = ' ' || c = '\t'

/-- Python `str.isspace` restricted to characters that can occur on a
single line (a line produced by splitting on a newline). -/
def isPySpace (c : Char) : Bool :=
  c = ' ' || c = '\t' || c = '\n' || c = '\r' || c = '\x0b' || c = '\x0c'

/-- Longest common prefix of two character lists. -/
def lcp : List Char → List Char → List Char
  | a :: as, b :: bs => if a = b then a :: lcp as bs else []
  | _, _ => []

/-- Split a character list into its lines, mirroring Python
`text.split("\n")`: the result is always nonempty, and a trailing
newline yields a final empty line. -/
def splitLines : List Char → List (List Char)
  | [] => [[]]
  | c :: rest =>
    if c = '\n' then [] :: splitLines rest
    else
      match splitLines rest with
      | [] => [[c]]
      | l :: ls => (c :: l) :: ls

/-- Join lines with newline separators, the inverse of `splitLines`. -/
def joinLines : List (List Char) → List Char
  | [] => []
  | [l] => l
  | l :: ls => l ++ '\n' :: joinLines ls

/-- The common leading-whitespace margin of a list of lines: the
whitespace-only prefix shared by all non-blank lines (lines that are
empty or whitespace-only are ignored), as computed by
`textwrap.dedent`. -/
def marginOf (lines : List (List Char)) : List Char :=
  match lines.filter (fun l => !(l.all isPySpace)) with
  | [] => []
  | a :: rest => (rest.foldl lcp a).takeWhile isMarginWs

/-- `textwrap.dedent` on a character list: remove the common leading
whitespace margin from every line; whitespace-only lines are
normalized to empty lines. -/
def pyDedentL (s : List Char) : List Char :=
  let lines := splitLines s
  let m := (marginOf lines).length
  joinLines (lines.map (fun l => if l.all isPySpace then [] else l.drop m))

/-- `textwrap.dedent` on strings. -/
def pyDedent (s : String) : String := String.mk (pyDedentL s.data)

/-- Python `str.replace` specialized to a single-character pattern
(the only use in the module is `text.replace("\n", ...)`). -/
def pyReplaceChar (c : Char) (rep : List Char) : List Char → List Char
  | [] => []
  | a :: as =>
    if a = c then rep ++ pyReplaceChar c rep as else a :: pyReplaceChar c rep as

/-- Helper for `pyTitle`: the boolean records whether the previous
character was alphabetic. -/
def pyTitleGo : Bool → List Char → List Char
  | _, [] => []
  | prevAlpha, c :: cs =>
    (if c.isAlpha then (if prevAlpha then c.toLower else c.toUpper) else c) ::
      pyTitleGo c.isAlpha cs

/-- Python `str.title` (ASCII letters; the module only applies it to
the validated level strings "info" and "warning"). -/
def pyTitle (s : String) : String := String.mk (pyTitleGo false s.data)

/-- The process-wide alert registry: the function attributes
`alert.numid`, `alert.strid` and `alert.has_disable_been_called` of the
Python module, made into an explicit state record. -/
structure AlertState where
  numid : Nat
  strid : List String
  has_disable_been_called : Bool
deriving Repr, DecidableEq

/-- The exceptions `alert` can raise: `ValueError` for a bad level and
`RuntimeError` for a call after `disable_old_alerts`. -/
inductive AlertError where
  | valueError
  | runtimeError
deriving Repr, DecidableEq

/-- The registry state at module load: `alert.numid = 0`,
`alert.strid = []`, `alert.has_disable_been_called = False`. -/
def initAlertState : AlertState := ⟨0, [], false⟩

/-- The two recognized alert levels. -/
def validLevels : List String := ["info", "warning"]

/-- Python `sep.join(strings)`. -/
def joinSep (sep : String) : List String → String
  | [] => ""
  | [a] => a
  | a :: as => a ++ sep ++ joinSep sep as

/-- The lines of the banner f-string of `alert`, with the identifier
already rendered and the body text already re-indented; joining them
with newlines gives exactly the f-string value. -/
def alertBannerLines (title text2 level idStr : String) : List String :=
  ["        <input type=\"hidden\" class=\"alert-hidder\" name=\"attr_alert-"
      ++ idStr ++ "\" value=\"0\"/>",
    "        <div class=\"alert alert-" ++ level ++ "\">",
    "            <div>",
    "                <h3> " ++ pyTitle level ++ " - " ++ title ++ "</h3>",
    "                " ++ text2,
    "            </div>",
    "            <label class=\"fakebutton\">",
    "                <input type=\"checkbox\" name=\"attr_alert-" ++ idStr
      ++ "\" value=\"1\" /> ×",
    "            </label>",
    "        </div>"]

/-- The banner HTML built by `alert` once the checks have passed: the
f-string of the source with the identifier already rendered to a
string, including the `text.replace("\n", "\n" + indent)` step and the
final `textwrap.dedent`. -/
def alertBanner (title text level idStr : String) : String :=
  let indent := "                "
  let text2 := String.mk (pyReplaceChar '\n' ("\n" ++ indent).data text.data)
  pyDedent (joinSep "\n" (alertBannerLines title text2 level idStr))

/-- The `alert` function.  It returns the banner (or the exception
raised) together with the registry state after the call; the state is
returned unchanged on the two error paths, which in the source raise
before any mutation. -/
def alert (s : AlertState) (title text level : String) (ID : Option String) :
    Except AlertError String × AlertState :=
  if ¬ (level ∈ validLevels) then
    (Except.error AlertError.valueError, s)
  else if s.has_disable_been_called then
    (Except.error AlertError.runtimeError, s)
  else
    match ID with
    | Option.none =>
      (Except.ok (alertBanner title text level (toString s.numid)),
        { s with numid := s.numid + 1 })
    | Option.some i =>
      (Except.ok (alertBanner title text level i),
        { s with strid := s.strid ++ [i] })

/-- The identifier list `list(range(alert.numid)) + alert.strid` used
by `disable_old_alerts`, with the integers rendered in decimal as the
f-string does. -/
def alertEntries (s : AlertState) : List String :=
  (List.range s.numid).map (fun n => toString n) ++ s.strid

/-- The `disable_old_alerts` function: sets the one-shot guard flag and
returns the `setAttrs` script fragment listing the marker attribute and
every registered identifier. -/
def disable_old_alerts (s : AlertState) (marker : String) : String × AlertState :=
  let s1 := { s with has_disable_been_called := true }
  let indent := "            "
  let lines := joinSep (",\n" ++ indent)
    ((alertEntries s).map (fun i => "\"alert-" ++ i ++ "\": 1"))
  (pyDedent
    ("        setAttrs(\x7b\n            \"" ++ marker
      ++ "\": 1,\n            " ++ lines ++ "\n        \x7d); "), s1)

/-- The arguments of one `alert` call. -/
structure AlertCall where
  title : String
  text : String
  level : String
  ID : Option String

/-- The identifier a call is assigned when run in state `s`, mirroring
lines 42-47 of the source: the current counter rendered in decimal if
no explicit ID is given, otherwise the given string. -/
def assignedId (s : AlertState) (c : AlertCall) : String :=
  match c.ID with
  | Option.none => toString s.numid
  | Option.some i => i

/-- Run a sequence of `alert` calls from a state; succeeds only when
every call succeeds, returning per call the assigned identifier and
the banner, together with the final state. -/
def runAlerts : AlertState → List AlertCall → Option (List (String × String) × AlertState)
  | s, [] => Option.some ([], s)
  | s, c :: cs =>
    match alert s c.title c.text c.level c.ID with
    | (Except.ok banner, s1) =>
      match runAlerts s1 cs with
      | Option.some (ps, s2) => Option.some ((assignedId s c, banner) :: ps, s2)
      | Option.none => Option.none
    | (Except.error _, _) => Option.none

/-- Substring containment on strings, used to state what the generated
fragments carry. -/
abbrev strIncl (p s : String) : Prop := p.data <:+: s.data

/-- The value of one hexadecimal digit, as accepted by `int(_, 16)`. -/
def hexDigitVal (c : Char) : Option Nat :=
  if '0' ≤ c ∧ c ≤ '9' then Option.some (c.toNat - '0'.toNat)
  else if 'a' ≤ c ∧ c ≤ 'f' then Option.some (c.toNat - 'a'.toNat + 10)
  else if 'A' ≤ c ∧ c ≤ 'F' then Option.some (c.toNat - 'A'.toNat + 10)
  else Option.none

/-- Accumulator loop for `pyIntHex`. -/
def hexValGo (acc : Nat) : List Char → Option Nat
  | [] => Option.some acc
  | c :: cs =>
    match hexDigitVal c with
    | Option.some d => hexValGo (16 * acc + d) cs
    | Option.none => Option.none

/-- Python `int(s, 16)` on a string of hexadecimal digits; empty or
non-digit input raises, modelled as `none`. -/
def pyIntHex (cs : List Char) : Option Nat :=
  match cs with
  | [] => Option.none
  | _ => hexValGo 0 cs

/-- Python slice `s[i:j]`. -/
def pySlice (s : List Char) (i j : Nat) : List Char := (s.take j).drop i

/-- Python `s.lstrip("#")`: drop every leading `#`. -/
def lstripHash (s : String) : List Char := s.data.dropWhile (fun c => c = '#')

/-- The channel extraction
`tuple(int(hex_color[2*i:2*i+2], 16) / 255 for i in range(3))` of the
source, before the division: the three raw channel values. -/
def parseRGB (hex : String) : Option (Nat × Nat × Nat) :=
  let h := lstripHash hex
  match pyIntHex (pySlice h 0 2), pyIntHex (pySlice h 2 4), pyIntHex (pySlice h 4 6) with
  | Option.some r, Option.some g, Option.some b => Option.some (r, g, b)
  | _, _, _ => Option.none

/-- The luma formula `0.2126 * r + 0.7152 * g + 0.0722 * b` of the
source, over exact rationals. -/
def lumaOf (r g b : ℚ) : ℚ := 0.2126 * r + 0.7152 * g + 0.0722 * b

/-- Round-half-to-even of the fraction `num / den` (`den > 0`) to an
integer, the tie-breaking rule of IEEE-754 binary64 arithmetic. -/
def rhe (num den : ℕ) : ℕ :=
  let m0 := num / den
  let r2 := 2 * (num % den)
  if r2 < den then m0
  else if den < r2 then m0 + 1
  else if m0 % 2 = 0 then m0 else m0 + 1

/-- Double `N` until `N / den` reaches `lo`, counting the shifts
(bounded by the fuel; `rndFrac` passes fuel covering the whole
binary64 normal exponent range). -/
def upShift (den lo : ℕ) : ℕ → ℕ → ℕ → ℕ × ℕ
  | 0, N, u => (N, u)
  | fuel + 1, N, u =>
    if N < lo * den then upShift den lo fuel (2 * N) (u + 1) else (N, u)

/-- Double `D` until `N / D` drops below `hi`, counting the shifts. -/
def dnShift (N hi : ℕ) : ℕ → ℕ → ℕ → ℕ × ℕ
  | 0, D, d => (D, d)
  | fuel + 1, D, d =>
    if hi * D ≤ N then dnShift N hi fuel (2 * D) (d + 1) else (D, d)

/-- Round the nonnegative fraction `num / den` to the nearest IEEE-754
binary64 value (53-bit significand, round half to even), returned as a
dyadic mantissa/scale pair `(m, s)` of value `m / 2^s`.  The scaling
loops bring the fraction into `[2^52, 2^53)` before rounding; the fuel
covers the whole binary64 normal range, which the luma computation
(values in `[0, 2]`) never leaves, so overflow and subnormals need no
modelling. -/
def rndFrac (num den : ℕ) : ℕ × ℕ :=
  if num = 0 then (0, 0)
  else
    let p := upShift den (2 ^ 52) 1200 num 0
    let q := dnShift p.1 (2 ^ 53) 1200 den 0
    let m := rhe p.1 q.1
    if q.2 ≤ p.2 then (m, p.2 - q.2) else (m * 2 ^ (q.2 - p.2), 0)

/-- Binary64 multiplication of two dyadic values: the exact product,
correctly rounded (IEEE-754 semantics of Python `*` on floats). -/
def fMul (a b : ℕ × ℕ) : ℕ × ℕ := rndFrac (a.1 * b.1) (2 ^ (a.2 + b.2))

/-- Binary64 addition of two dyadic values: the exact sum, correctly
rounded (IEEE-754 semantics of Python `+` on floats). -/
def fAdd (a b : ℕ × ℕ) : ℕ × ℕ :=
  let S := max a.2 b.2
  rndFrac (a.1 * 2 ^ (S - a.2) + b.1 * 2 ^ (S - b.2)) (2 ^ S)

/-- The double-precision luma the source computes:
`0.2126 * (R/255) + 0.7152 * (G/255) + 0.0722 * (B/255)` evaluated in
IEEE-754 binary64 arithmetic, left to right — each decimal literal is
the nearest double, each division, product and sum is correctly
rounded. -/
def lumaF (R G B : ℕ) : ℕ × ℕ :=
  fAdd
    (fAdd (fMul (rndFrac 2126 10000) (rndFrac R 255))
      (fMul (rndFrac 7152 10000) (rndFrac G 255)))
    (fMul (rndFrac 722 10000) (rndFrac B 255))

/-- The exact rational value of a dyadic mantissa/scale pair. -/
def fVal (a : ℕ × ℕ) : ℚ := (a.1 : ℚ) / 2 ^ a.2

/-- The float comparison `value > 0.5` on a dyadic pair (0.5 is exactly
representable, so the float comparison is the exact one). -/
def fltGtHalf (a : ℕ × ℕ) : Bool := 2 ^ a.2 < 2 * a.1

/-- The float comparison `value < 0.5` on a dyadic pair. -/
def fltLtHalf (a : ℕ × ℕ) : Bool := 2 * a.1 < 2 ^ a.2

/-- One row of `css_colors.csv`: a color name and a hex string. -/
structure ColorDef where
  color : String
  hex : String

/-- The three per-color line lists (`lines_header`, `lines_rolls`,
`lines_buttons`) built in the CSV loop, after the luma-dependent
text-color overrides have been appended and before the closing brace is
added.  `none` when the hex string does not parse (the source would
raise). -/
def ruleLinesFor (cd : ColorDef) : Option (List String × List String × List String) :=
  match parseRGB cd.hex with
  | Option.none => Option.none
  | Option.some (R, G, B) =>
    let luma := lumaF R G B
    let lines_header :=
      [".sheet-rolltemplate-custom .sheet-crt-container.sheet-crt-color-"
          ++ cd.color ++ " \x7b",
        "    --header-bg-color: " ++ cd.hex ++ ";"]
        ++ (if fltGtHalf luma then ["    --header-text-color: #000;"] else [])
    let lines_rolls :=
      [".sheet-rolltemplate-custom .sheet-crt-container.sheet-crt-rlcolor-"
          ++ cd.color ++ " .inlinerollresult \x7b",
        "    --roll-bg-color: " ++ cd.hex ++ ";"]
        ++ (if fltLtHalf luma then ["    --roll-text-color: #FFF;"] else [])
    let lines_buttons :=
      [".sheet-rolltemplate-custom .sheet-crt-container.sheet-crt-btcolor-"
          ++ cd.color ++ " a \x7b",
        "    --button-bg-color: " ++ cd.hex ++ ";"]
        ++ (if fltGtHalf luma then ["    --button-text-color: #000;"] else [])
    Option.some (lines_header, lines_rolls, lines_buttons)

/-- Close a rule block and join its lines, mirroring
`lines.append("}")` followed by `"\n".join(lines)`. -/
def blockOf (lines : List String) : String :=
  joinSep "\n" (lines ++ ["\x7d"])

/-- The `css_rules` list accumulated by the CSV loop: for each color
definition, the header, roll and button blocks in that order. -/
def cssRulesOf : List ColorDef → Option (List String)
  | [] => Option.some []
  | cd :: rest =>
    match ruleLinesFor cd, cssRulesOf rest with
    | Option.some (h, r, b), Option.some tail =>
      Option.some ([blockOf h, blockOf r, blockOf b] ++ tail)
    | _, _ => Option.none

/-- The exported `custom_rt_color_css` string:
`"*/\n" + "\n".join(css_rules) + "\n/*"`. -/
def customRtColorCss (defs : List ColorDef) : Option String :=
  (cssRulesOf defs).map
    (fun rules => "*/\n" ++ joinSep "\n" rules ++ "\n/*")

/-- The three blocks contributed by one color definition (empty when
its hex does not parse); `cssRulesOf` is their concatenation. -/
def blocksOf (cd : ColorDef) : List String :=
  match ruleLinesFor cd with
  | Option.some (h, r, b) => [blockOf h, blockOf r, blockOf b]
  | Option.none => []

/-- Python `dict.update` on mappings modelled as lookup functions: the
updated dictionary prefers the right-hand (updating) table. -/
def dictUpdate {α β : Type} (d u : α → Option β) : α → Option β :=
  fun k =>
    match u k with
    | Option.some v => Option.some v
    | Option.none => d k

/-- First defined value of two optional values (lookup priority). -/
def firstSome {β : Type} (a b : Option β) : Option β :=
  match a with
  | Option.some v => Option.some v
  | Option.none => b

/-- The final `EXPORTS` mapping: the base table updated in turn with
the six per-tab export tables, in the fixed order
`tab_1_character, ..., tab_6_sheet` of the source. -/
def mergedExports {α β : Type} (base t1 t2 t3 t4 t5 t6 : α → Option β) : α → Option β :=
  dictUpdate (dictUpdate (dictUpdate (dictUpdate (dictUpdate (dictUpdate base t1) t2) t3) t4) t5) t6

/-! ### Helper lemmas -/

theorem firstSome_isSome {β : Type} (a b : Option β) :
    (firstSome a b).isSome = (a.isSome || b.isSome) := by
  cases a <;> rfl

/-! ### Claims about the alert registry guard and errors -/

/-- Claim C1, counterexample: with the guard flag set, a call whose
`level` is invalid fails with the value error, not the state error, so
not every post-guard call fails with a state (logic) error. -/
theorem alert_after_disable_invalid_level_cex :
    (alert ⟨0, [], true⟩ "t" "x" "bogus" Option.none).1
        = Except.error AlertError.valueError ∧
      (alert ⟨0, [], true⟩ "t" "x" "bogus" Option.none).1
        ≠ Except.error AlertError.runtimeError :=
  ⟨rfl, fun h => AlertError.noConfusion (Except.error.inj h)⟩

/-- Claim C1, amended: once the guard flag is set, every call to
`alert` fails (with the state error whenever the level is one of the
two recognized values, and with the value error otherwise) and the
registry state is unchanged, so no new alert is created. -/
theorem alert_after_disable_fails (s : AlertState) (title text level : String)
    (ID : Option String) (h : s.has_disable_been_called = true) :
    (∃ e, (alert s title text level ID).1 = Except.error e) ∧
      (alert s title text level ID).2 = s ∧
      (level ∈ validLevels →
        (alert s title text level ID).1 = Except.error AlertError.runtimeError) := by
  by_cases hl : level ∈ validLevels
  · refine ⟨⟨AlertError.runtimeError, ?_⟩, ?_, fun _ => ?_⟩ <;>
      simp [alert, hl, h]
  · refine ⟨⟨AlertError.valueError, ?_⟩, ?_, fun hc => absurd hc hl⟩ <;>
      simp [alert, hl]

/-- Witness for `alert_after_disable_fails` at a concrete state and
valid level. -/
theorem alert_after_disable_fails_witness :
    (AlertState.mk 1 ["y"] true).has_disable_been_called = true ∧
      ((∃ e, (alert ⟨1, ["y"], true⟩ "t" "x" "info" Option.none).1 = Except.error e) ∧
        (alert ⟨1, ["y"], true⟩ "t" "x" "info" Option.none).2 = ⟨1, ["y"], true⟩ ∧
        ("info" ∈ validLevels →
          (alert ⟨1, ["y"], true⟩ "t" "x" "info" Option.none).1
            = Except.error AlertError.runtimeError)) :=
  ⟨rfl, alert_after_disable_fails ⟨1, ["y"], true⟩ "t" "x" "info" Option.none rfl⟩

/-- Claim C2: for every state and every title, text and ID, `alert`
raises the value error exactly when the level is not one of the two
recognized values "info" and "warning"; in particular the check
precedes the guard check, and a valid level never takes this branch. -/
theorem alert_value_error_iff_invalid_level (s : AlertState)
    (title text level : String) (ID : Option String) :
    (alert s title text level ID).1 = Except.error AlertError.valueError ↔
      ¬ level ∈ validLevels := by
  by_cases hl : level ∈ validLevels
  · by_cases hd : s.has_disable_been_called
    · simp [alert, hl, hd]
    · cases ID <;> simp [alert, hl, hd]
  · simp [alert, hl]

/-- Claim C9: whenever `alert` fails, the registry state it returns is
the state it was given: the numeric counter, the string-ID list and
the guard flag are unchanged. -/
theorem alert_error_preserves_state (s : AlertState) (title text level : String)
    (ID : Option String) (e : AlertError)
    (h : (alert s title text level ID).1 = Except.error e) :
    (alert s title text level ID).2 = s := by
  by_cases hl : level ∈ validLevels
  · by_cases hd : s.has_disable_been_called
    · simp [alert, hl, hd]
    · cases ID <;> simp [alert, hl, hd] at h
  · simp [alert, hl]

/-- Witness for `alert_error_preserves_state` at a concrete failing
call. -/
theorem alert_error_preserves_state_witness :
    (alert ⟨3, ["y"], false⟩ "t" "x" "bad" Option.none).1
        = Except.error AlertError.valueError ∧
      (alert ⟨3, ["y"], false⟩ "t" "x" "bad" Option.none).2 = ⟨3, ["y"], false⟩ :=
  ⟨rfl,
    alert_error_preserves_state ⟨3, ["y"], false⟩ "t" "x" "bad" Option.none
      AlertError.valueError rfl⟩

/-- Claim C10: `disable_old_alerts` leaves the identifier registry
untouched (same counter, same string-ID list), only sets the guard
flag, and calling it again with the same marker returns exactly the
same script fragment. -/
theorem disable_old_alerts_only_sets_flag (s : AlertState) (marker : String) :
    (disable_old_alerts s marker).2.numid = s.numid ∧
      (disable_old_alerts s marker).2.strid = s.strid ∧
      (disable_old_alerts s marker).2.has_disable_been_called = true ∧
      (disable_old_alerts (disable_old_alerts s marker).2 marker).1
        = (disable_old_alerts s marker).1 :=
  ⟨rfl, rfl, rfl, rfl⟩

/-- Claim C7: the final `EXPORTS` mapping resolves every key to the
value of the last table in the fixed merge order
(base, tab 1, ..., tab 6) that defines it, and it contains every key
defined by any of the six per-tab tables; `dict.update` is total, so
no duplicate-key error can occur. -/
theorem exports_merge_last_tab_wins {α β : Type}
    (base t1 t2 t3 t4 t5 t6 : α → Option β) (k : α) :
    mergedExports base t1 t2 t3 t4 t5 t6 k =
        firstSome (t6 k) (firstSome (t5 k) (firstSome (t4 k)
          (firstSome (t3 k) (firstSome (t2 k) (firstSome (t1 k) (base k)))))) ∧
      ((t1 k).isSome = true ∨ (t2 k).isSome = true ∨ (t3 k).isSome = true ∨
          (t4 k).isSome = true ∨ (t5 k).isSome = true ∨ (t6 k).isSome = true →
        (mergedExports base t1 t2 t3 t4 t5 t6 k).isSome = true) := by
  constructor
  · rfl
  · intro h
    show (firstSome (t6 k) (firstSome (t5 k) (firstSome (t4 k)
      (firstSome (t3 k) (firstSome (t2 k) (firstSome (t1 k) (base k))))))).isSome = true
    simp only [firstSome_isSome, Bool.or_eq_true]
    rcases h with h | h | h | h | h | h <;> simp [h]

/-- Witness for `exports_merge_last_tab_wins` at concrete tables with
an overlapping key. -/
theorem exports_merge_last_tab_wins_witness :
    (mergedExports (fun _ : Nat => Option.some 0)
        (fun k => if k = 2 then Option.some 1 else Option.none)
        (fun _ => Option.none) (fun _ => Option.none) (fun _ => Option.none)
        (fun _ => Option.none)
        (fun k => if k = 2 then Option.some 6 else Option.none) 2).isSome = true :=
  (exports_merge_last_tab_wins (fun _ : Nat => Option.some 0)
      (fun k => if k = 2 then Option.some 1 else Option.none)
      (fun _ => Option.none) (fun _ => Option.none) (fun _ => Option.none)
      (fun _ => Option.none)
      (fun k => if k = 2 then Option.some 6 else Option.none) 2).2
    (Or.inl (by decide))

/-! ### Claim C5: luma-based text-color overrides -/

theorem take_append_of_le (a b : List Char) (n : Nat) (h : n ≤ a.length) :
    (a ++ b).take n = a.take n := by
  rw [List.take_append_eq_append_take, Nat.sub_eq_zero_of_le h, List.take_zero,
    List.append_nil]

theorem ne_lit_affix (p x q t : String) (n : Nat) (hn : n ≤ p.data.length)
    (h : p.data.take n ≠ t.data.take n) : p ++ x ++ q ≠ t := by
  intro he
  apply h
  have hx : (p ++ x ++ q).data = (p.data ++ x.data) ++ q.data := by
    simp [String.data_append]
  have h2 : (p ++ x ++ q).data.take n = p.data.take n := by
    rw [hx,
      take_append_of_le _ _ _
        (by rw [List.length_append]; exact le_trans hn (Nat.le_add_right _ _)),
      take_append_of_le _ _ _ hn]
  rw [← h2, he]

theorem bool_ite_pos {α : Sort 1} (b : Bool) (hb : b = true) (x y : α) :
    (if b = true then x else y) = x := by
  rw [hb]
  exact if_pos rfl

theorem bool_ite_neg {α : Sort 1} (b : Bool) (hb : b = false) (x y : α) :
    (if b = true then x else y) = y := by
  rw [hb]
  exact if_neg (by simp)

theorem fltGtHalf_iff (a : ℕ × ℕ) : fltGtHalf a = true ↔ (0.5 : ℚ) < fVal a := by
  simp only [fltGtHalf, fVal, decide_eq_true_eq]
  rw [show (0.5 : ℚ) = 1 / 2 from by norm_num,
    div_lt_div_iff₀ (by norm_num : (0 : ℚ) < 2) (by positivity : (0 : ℚ) < 2 ^ a.2),
    one_mul, show ((2 : ℚ) ^ a.2) = ((2 ^ a.2 : ℕ) : ℚ) from by push_cast; ring,
    show ((a.1 : ℚ) * 2) = ((a.1 * 2 : ℕ) : ℚ) from by push_cast; ring,
    Nat.cast_lt]
  omega

theorem fltLtHalf_iff (a : ℕ × ℕ) : fltLtHalf a = true ↔ fVal a < (0.5 : ℚ) := by
  simp only [fltLtHalf, fVal, decide_eq_true_eq]
  rw [show (0.5 : ℚ) = 1 / 2 from by norm_num,
    div_lt_div_iff₀ (by positivity : (0 : ℚ) < 2 ^ a.2) (by norm_num : (0 : ℚ) < 2),
    one_mul, show ((2 : ℚ) ^ a.2) = ((2 ^ a.2 : ℕ) : ℚ) from by push_cast; ring,
    show ((a.1 : ℚ) * 2) = ((a.1 * 2 : ℕ) : ℚ) from by push_cast; ring,
    Nat.cast_lt]
  omega

/-- Claim C5, counterexample: the color `#0DA371` has exact luminance
exactly 0.5, but the double-precision luma the generator computes
rounds strictly below 0.5, so the white roll-text override IS added —
refuting the claim that a color with luminance exactly 0.5 gets no
override in any block. -/
theorem css_luma_boundary_cex :
    lumaOf ((13 : ℚ) / 255) ((163 : ℚ) / 255) ((113 : ℚ) / 255) = 0.5 ∧
    parseRGB "#0DA371" = Option.some (13, 163, 113) ∧
    fVal (lumaF 13 163 113) < 0.5 ∧
    ruleLinesFor ⟨"teal", "#0DA371"⟩ = Option.some
      ([".sheet-rolltemplate-custom .sheet-crt-container.sheet-crt-color-teal \x7b",
        "    --header-bg-color: #0DA371;"],
        [".sheet-rolltemplate-custom .sheet-crt-container.sheet-crt-rlcolor-teal .inlinerollresult \x7b",
          "    --roll-bg-color: #0DA371;", "    --roll-text-color: #FFF;"],
        [".sheet-rolltemplate-custom .sheet-crt-container.sheet-crt-btcolor-teal a \x7b",
          "    --button-bg-color: #0DA371;"]) ∧
    "    --roll-text-color: #FFF;" ∈
      [".sheet-rolltemplate-custom .sheet-crt-container.sheet-crt-rlcolor-teal .inlinerollresult \x7b",
        "    --roll-bg-color: #0DA371;", "    --roll-text-color: #FFF;"] :=
  ⟨by norm_num [lumaOf], by decide, (fltLtHalf_iff _).mp (by decide), by decide,
    by decide⟩

/-- Claim C5, amended: the generator computes luminance by evaluating
`0.2126*r + 0.7152*g + 0.0722*b` on the channels divided by 255 in
IEEE-754 double precision, and compares the computed double to 0.5:
strictly above adds the black text override to the header and button
line lists only, strictly below adds the white override to the roll
line list only, and exactly 0.5 adds none anywhere.  `#FFFFFF` (double
luma 1.0) gets black header/button text and no roll override, and
`#000000` (double luma 0.0) gets white roll text and no header/button
override.  Because of rounding, the computed double can land strictly
below 0.5 on a color whose exact luminance is exactly 0.5 (such as
`#0DA371`), which then does get the white roll override. -/
theorem css_luma_text_overrides (name hex : String) (R G B : Nat)
    (hp : parseRGB hex = Option.some (R, G, B)) :
    (∃ hl rl bl, ruleLinesFor ⟨name, hex⟩ = Option.some (hl, rl, bl) ∧
      (fVal (lumaF R G B) > 0.5 →
        "    --header-text-color: #000;" ∈ hl ∧
        "    --button-text-color: #000;" ∈ bl ∧
        ¬ "    --roll-text-color: #FFF;" ∈ rl) ∧
      (fVal (lumaF R G B) < 0.5 →
        "    --roll-text-color: #FFF;" ∈ rl ∧
        ¬ "    --header-text-color: #000;" ∈ hl ∧
        ¬ "    --button-text-color: #000;" ∈ bl) ∧
      (fVal (lumaF R G B) = 0.5 →
        ¬ "    --header-text-color: #000;" ∈ hl ∧
        ¬ "    --button-text-color: #000;" ∈ bl ∧
        ¬ "    --roll-text-color: #FFF;" ∈ rl)) ∧
    (∃ hl rl bl, ruleLinesFor ⟨name, "#FFFFFF"⟩ = Option.some (hl, rl, bl) ∧
      "    --header-text-color: #000;" ∈ hl ∧
      "    --button-text-color: #000;" ∈ bl ∧
      ¬ "    --roll-text-color: #FFF;" ∈ rl) ∧
    (∃ hl rl bl, ruleLinesFor ⟨name, "#000000"⟩ = Option.some (hl, rl, bl) ∧
      "    --roll-text-color: #FFF;" ∈ rl ∧
      ¬ "    --header-text-color: #000;" ∈ hl ∧
      ¬ "    --button-text-color: #000;" ∈ bl) := by
  have hselH : ∀ nm : String,
      ".sheet-rolltemplate-custom .sheet-crt-container.sheet-crt-color-"
          ++ nm ++ " \x7b" ≠ "    --header-text-color: #000;" :=
    fun nm => ne_lit_affix _ nm _ _ 1 (by decide) (by decide)
  have hbgH : ∀ hx : String,
      "    --header-bg-color: " ++ hx ++ ";" ≠ "    --header-text-color: #000;" :=
    fun hx => ne_lit_affix _ hx _ _ 14 (by decide) (by decide)
  have hselR : ∀ nm : String,
      ".sheet-rolltemplate-custom .sheet-crt-container.sheet-crt-rlcolor-"
          ++ nm ++ " .inlinerollresult \x7b" ≠ "    --roll-text-color: #FFF;" :=
    fun nm => ne_lit_affix _ nm _ _ 1 (by decide) (by decide)
  have hbgR : ∀ hx : String,
      "    --roll-bg-color: " ++ hx ++ ";" ≠ "    --roll-text-color: #FFF;" :=
    fun hx => ne_lit_affix _ hx _ _ 12 (by decide) (by decide)
  have hselB : ∀ nm : String,
      ".sheet-rolltemplate-custom .sheet-crt-container.sheet-crt-btcolor-"
          ++ nm ++ " a \x7b" ≠ "    --button-text-color: #000;" :=
    fun nm => ne_lit_affix _ nm _ _ 1 (by decide) (by decide)
  have hbgB : ∀ hx : String,
      "    --button-bg-color: " ++ hx ++ ";" ≠ "    --button-text-color: #000;" :=
    fun hx => ne_lit_affix _ hx _ _ 14 (by decide) (by decide)
  have main : ∀ (nm hx : String) (R G B : Nat),
      parseRGB hx = Option.some (R, G, B) →
      ∃ hl rl bl, ruleLinesFor ⟨nm, hx⟩ = Option.some (hl, rl, bl) ∧
        (fVal (lumaF R G B) > 0.5 →
          "    --header-text-color: #000;" ∈ hl ∧
          "    --button-text-color: #000;" ∈ bl ∧
          ¬ "    --roll-text-color: #FFF;" ∈ rl) ∧
        (fVal (lumaF R G B) < 0.5 →
          "    --roll-text-color: #FFF;" ∈ rl ∧
          ¬ "    --header-text-color: #000;" ∈ hl ∧
          ¬ "    --button-text-color: #000;" ∈ bl) ∧
        (fVal (lumaF R G B) = 0.5 →
          ¬ "    --header-text-color: #000;" ∈ hl ∧
          ¬ "    --button-text-color: #000;" ∈ bl ∧
          ¬ "    --roll-text-color: #FFF;" ∈ rl) := by
    intro nm hx R G B hp
    simp only [ruleLinesFor, hp]
    refine ⟨_, _, _, rfl, fun hgt => ?_, fun hlt => ?_, fun heq => ?_⟩
    · have hb1 : fltGtHalf (lumaF R G B) = true := (fltGtHalf_iff _).mpr hgt
      have hb2 : fltLtHalf (lumaF R G B) = false := by
        cases hb : fltLtHalf (lumaF R G B) with
        | false => rfl
        | true => exact absurd ((fltLtHalf_iff _).mp hb) (lt_asymm hgt)
      rw [bool_ite_pos _ hb1, bool_ite_pos _ hb1, bool_ite_neg _ hb2]
      refine ⟨by simp, by simp, ?_⟩
      simp only [List.append_nil, List.mem_cons, List.not_mem_nil, or_false]
      exact fun h => h.elim (fun h1 => (hselR nm) h1.symm)
        (fun h1 => (hbgR hx) h1.symm)
    · have hb1 : fltLtHalf (lumaF R G B) = true := (fltLtHalf_iff _).mpr hlt
      have hb2 : fltGtHalf (lumaF R G B) = false := by
        cases hb : fltGtHalf (lumaF R G B) with
        | false => rfl
        | true => exact absurd ((fltGtHalf_iff _).mp hb) (lt_asymm hlt)
      rw [bool_ite_neg _ hb2, bool_ite_neg _ hb2, bool_ite_pos _ hb1]
      refine ⟨by simp, ?_, ?_⟩ <;>
        simp only [List.append_nil, List.mem_cons, List.not_mem_nil, or_false]
      · exact fun h => h.elim (fun h1 => (hselH nm) h1.symm)
          (fun h1 => (hbgH hx) h1.symm)
      · exact fun h => h.elim (fun h1 => (hselB nm) h1.symm)
          (fun h1 => (hbgB hx) h1.symm)
    · have hb1 : fltGtHalf (lumaF R G B) = false := by
        cases hb : fltGtHalf (lumaF R G B) with
        | false => rfl
        | true =>
          have := (fltGtHalf_iff _).mp hb
          rw [heq] at this
          exact absurd this (lt_irrefl _)
      have hb2 : fltLtHalf (lumaF R G B) = false := by
        cases hb : fltLtHalf (lumaF R G B) with
        | false => rfl
        | true =>
          have := (fltLtHalf_iff _).mp hb
          rw [heq] at this
          exact absurd this (lt_irrefl _)
      rw [bool_ite_neg _ hb1, bool_ite_neg _ hb1, bool_ite_neg _ hb2]
      refine ⟨?_, ?_, ?_⟩ <;>
        simp only [List.append_nil, List.mem_cons, List.not_mem_nil, or_false]
      · exact fun h => h.elim (fun h1 => (hselH nm) h1.symm)
          (fun h1 => (hbgH hx) h1.symm)
      · exact fun h => h.elim (fun h1 => (hselB nm) h1.symm)
          (fun h1 => (hbgB hx) h1.symm)
      · exact fun h => h.elim (fun h1 => (hselR nm) h1.symm)
          (fun h1 => (hbgR hx) h1.symm)
  refine ⟨main name hex R G B hp, ?_, ?_⟩
  · obtain ⟨hl, rl, bl, hr, himp, _, _⟩ :=
      main name "#FFFFFF" 255 255 255 (by decide)
    exact ⟨hl, rl, bl, hr, himp ((fltGtHalf_iff _).mp (by decide))⟩
  · obtain ⟨hl, rl, bl, hr, _, himp, _⟩ :=
      main name "#000000" 0 0 0 (by decide)
    exact ⟨hl, rl, bl, hr, himp ((fltLtHalf_iff _).mp (by decide))⟩

/-- Witness for `css_luma_text_overrides` at a concrete color. -/
theorem css_luma_text_overrides_witness :
    parseRGB "#FF0000" = Option.some (255, 0, 0) ∧
      ((∃ hl rl bl, ruleLinesFor ⟨"red", "#FF0000"⟩ = Option.some (hl, rl, bl) ∧
        (fVal (lumaF 255 0 0) > 0.5 →
          "    --header-text-color: #000;" ∈ hl ∧
          "    --button-text-color: #000;" ∈ bl ∧
          ¬ "    --roll-text-color: #FFF;" ∈ rl) ∧
        (fVal (lumaF 255 0 0) < 0.5 →
          "    --roll-text-color: #FFF;" ∈ rl ∧
          ¬ "    --header-text-color: #000;" ∈ hl ∧
          ¬ "    --button-text-color: #000;" ∈ bl) ∧
        (fVal (lumaF 255 0 0) = 0.5 →
          ¬ "    --header-text-color: #000;" ∈ hl ∧
          ¬ "    --button-text-color: #000;" ∈ bl ∧
          ¬ "    --roll-text-color: #FFF;" ∈ rl)) ∧
      (∃ hl rl bl, ruleLinesFor ⟨"red", "#FFFFFF"⟩ = Option.some (hl, rl, bl) ∧
        "    --header-text-color: #000;" ∈ hl ∧
        "    --button-text-color: #000;" ∈ bl ∧
        ¬ "    --roll-text-color: #FFF;" ∈ rl) ∧
      (∃ hl rl bl, ruleLinesFor ⟨"red", "#000000"⟩ = Option.some (hl, rl, bl) ∧
        "    --roll-text-color: #FFF;" ∈ rl ∧
        ¬ "    --header-text-color: #000;" ∈ hl ∧
        ¬ "    --button-text-color: #000;" ∈ bl)) :=
  ⟨by decide, css_luma_text_overrides "red" "#FF0000" 255 0 0 (by decide)⟩

/-! ### Claim C6: three CSS blocks per color definition -/

theorem ruleLinesFor_spec (cd : ColorDef)
    (h : (parseRGB cd.hex).isSome = true) :
    ∃ hl rl bl, ruleLinesFor cd = Option.some (hl, rl, bl) ∧
      hl.head? = Option.some
        (".sheet-rolltemplate-custom .sheet-crt-container.sheet-crt-color-"
          ++ cd.color ++ " \x7b") ∧
      ("    --header-bg-color: " ++ cd.hex ++ ";") ∈ hl ∧
      rl.head? = Option.some
        (".sheet-rolltemplate-custom .sheet-crt-container.sheet-crt-rlcolor-"
          ++ cd.color ++ " .inlinerollresult \x7b") ∧
      ("    --roll-bg-color: " ++ cd.hex ++ ";") ∈ rl ∧
      bl.head? = Option.some
        (".sheet-rolltemplate-custom .sheet-crt-container.sheet-crt-btcolor-"
          ++ cd.color ++ " a \x7b") ∧
      ("    --button-bg-color: " ++ cd.hex ++ ";") ∈ bl := by
  obtain ⟨v, hp⟩ := Option.isSome_iff_exists.mp h
  obtain ⟨R, G, B⟩ := v
  simp only [ruleLinesFor, hp]
  exact ⟨_, _, _, rfl, rfl, by simp, rfl, by simp, rfl, by simp⟩

theorem blocksOf_eq (cd : ColorDef) (hl rl bl : List String)
    (h : ruleLinesFor cd = Option.some (hl, rl, bl)) :
    blocksOf cd = [blockOf hl, blockOf rl, blockOf bl] := by
  simp [blocksOf, h]

theorem blocksOf_length (cd : ColorDef)
    (h : (parseRGB cd.hex).isSome = true) : (blocksOf cd).length = 3 := by
  obtain ⟨hl, rl, bl, hr, _⟩ := ruleLinesFor_spec cd h
  rw [blocksOf_eq cd hl rl bl hr]
  rfl

theorem cssRulesOf_eq_flatMap (defs : List ColorDef)
    (h : ∀ cd ∈ defs, (parseRGB cd.hex).isSome = true) :
    cssRulesOf defs = Option.some (defs.flatMap blocksOf) := by
  induction defs with
  | nil => rfl
  | cons cd rest ih =>
    obtain ⟨hl, rl, bl, hr, _⟩ :=
      ruleLinesFor_spec cd (h cd (List.mem_cons_self cd rest))
    have hrest := ih (fun c hc => h c (List.mem_cons_of_mem cd hc))
    simp [cssRulesOf, hr, hrest, blocksOf_eq cd hl rl bl hr]

theorem flatMap_blocks_length (defs : List ColorDef)
    (h : ∀ cd ∈ defs, (parseRGB cd.hex).isSome = true) :
    (defs.flatMap blocksOf).length = 3 * defs.length := by
  induction defs with
  | nil => rfl
  | cons cd rest ih =>
    have h1 := blocksOf_length cd (h cd (List.mem_cons_self cd rest))
    have h2 := ih (fun c hc => h c (List.mem_cons_of_mem cd hc))
    simp [List.flatMap_cons, h1, h2]
    ring

theorem flatMap_blocks_drop (i : Nat) (defs : List ColorDef)
    (h : ∀ cd ∈ defs, (parseRGB cd.hex).isSome = true) :
    (defs.flatMap blocksOf).drop (3 * i) = (defs.drop i).flatMap blocksOf := by
  induction defs generalizing i with
  | nil => simp
  | cons cd rest ih =>
    cases i with
    | zero => simp
    | succ j =>
      have h1 := blocksOf_length cd (h cd (List.mem_cons_self cd rest))
      have h2 := ih j (fun c hc => h c (List.mem_cons_of_mem cd hc))
      rw [List.flatMap_cons, List.drop_append_eq_append_drop, h1]
      have h3 : 3 * (j + 1) - 3 = 3 * j := by omega
      have h4 : (blocksOf cd).drop (3 * (j + 1)) = [] := by
        apply List.drop_eq_nil_of_le
        rw [h1]; omega
      rw [h3, h4, List.nil_append, h2, List.drop_succ_cons]

/-- Claim C6: for every list of color definitions whose hex strings
parse, the generator emits exactly three rule blocks per definition —
header, roll-result and button, in that order and in input order, each
selected by a class derived from the color name and carrying the
corresponding background custom property set to the hex value — and
the exported CSS string is the concatenation of all blocks wrapped in
comment delimiters. -/
theorem css_rules_per_color (defs : List ColorDef)
    (h : ∀ cd ∈ defs, (parseRGB cd.hex).isSome = true) :
    ∃ rules, cssRulesOf defs = Option.some rules ∧
      rules = defs.flatMap blocksOf ∧
      rules.length = 3 * defs.length ∧
      customRtColorCss defs =
        Option.some ("*/\n" ++ joinSep "\n" rules ++ "\n/*") ∧
      ∀ (i : Nat) (hi : i < defs.length),
        ∃ hl rl bl,
          ruleLinesFor (defs.get ⟨i, hi⟩) = Option.some (hl, rl, bl) ∧
          (rules.drop (3 * i)).take 3 = [blockOf hl, blockOf rl, blockOf bl] ∧
          hl.head? = Option.some
            (".sheet-rolltemplate-custom .sheet-crt-container.sheet-crt-color-"
              ++ (defs.get ⟨i, hi⟩).color ++ " \x7b") ∧
          ("    --header-bg-color: " ++ (defs.get ⟨i, hi⟩).hex ++ ";") ∈ hl ∧
          rl.head? = Option.some
            (".sheet-rolltemplate-custom .sheet-crt-container.sheet-crt-rlcolor-"
              ++ (defs.get ⟨i, hi⟩).color ++ " .inlinerollresult \x7b") ∧
          ("    --roll-bg-color: " ++ (defs.get ⟨i, hi⟩).hex ++ ";") ∈ rl ∧
          bl.head? = Option.some
            (".sheet-rolltemplate-custom .sheet-crt-container.sheet-crt-btcolor-"
              ++ (defs.get ⟨i, hi⟩).color ++ " a \x7b") ∧
          ("    --button-bg-color: " ++ (defs.get ⟨i, hi⟩).hex ++ ";") ∈ bl := by
  refine ⟨defs.flatMap blocksOf, cssRulesOf_eq_flatMap defs h, rfl,
    flatMap_blocks_length defs h, ?_, ?_⟩
  · simp [customRtColorCss, cssRulesOf_eq_flatMap defs h]
  · intro i hi
    have hcd : defs.get ⟨i, hi⟩ ∈ defs := List.get_mem defs i hi
    obtain ⟨hl, rl, bl, hr, hh1, hh2, hr1, hr2, hb1, hb2⟩ :=
      ruleLinesFor_spec (defs.get ⟨i, hi⟩) (h _ hcd)
    refine ⟨hl, rl, bl, hr, ?_, hh1, hh2, hr1, hr2, hb1, hb2⟩
    rw [flatMap_blocks_drop i defs h]
    have hdrop : defs.drop i = defs.get ⟨i, hi⟩ :: defs.drop (i + 1) := by
      rw [List.drop_eq_getElem_cons hi, List.get_eq_getElem]
    rw [hdrop, List.flatMap_cons,
      blocksOf_eq _ hl rl bl hr]
    rw [List.take_append_eq_append_take]
    simp

/-- Witness for `css_rules_per_color` on a concrete one-color CSV. -/
theorem css_rules_per_color_witness :
    (∀ cd ∈ [ColorDef.mk "red" "#FF0000"], (parseRGB cd.hex).isSome = true) ∧
      (∃ rules, cssRulesOf [ColorDef.mk "red" "#FF0000"] = Option.some rules ∧
        rules = [ColorDef.mk "red" "#FF0000"].flatMap blocksOf ∧
        rules.length = 3 * [ColorDef.mk "red" "#FF0000"].length ∧
        customRtColorCss [ColorDef.mk "red" "#FF0000"] =
          Option.some ("*/\n" ++ joinSep "\n" rules ++ "\n/*") ∧
        ∀ (i : Nat) (hi : i < [ColorDef.mk "red" "#FF0000"].length),
          ∃ hl rl bl,
            ruleLinesFor ([ColorDef.mk "red" "#FF0000"].get ⟨i, hi⟩)
              = Option.some (hl, rl, bl) ∧
            (rules.drop (3 * i)).take 3
              = [blockOf hl, blockOf rl, blockOf bl] ∧
            hl.head? = Option.some
              (".sheet-rolltemplate-custom .sheet-crt-container.sheet-crt-color-"
                ++ ([ColorDef.mk "red" "#FF0000"].get ⟨i, hi⟩).color ++ " \x7b") ∧
            ("    --header-bg-color: "
                ++ ([ColorDef.mk "red" "#FF0000"].get ⟨i, hi⟩).hex ++ ";") ∈ hl ∧
            rl.head? = Option.some
              (".sheet-rolltemplate-custom .sheet-crt-container.sheet-crt-rlcolor-"
                ++ ([ColorDef.mk "red" "#FF0000"].get ⟨i, hi⟩).color
                ++ " .inlinerollresult \x7b") ∧
            ("    --roll-bg-color: "
                ++ ([ColorDef.mk "red" "#FF0000"].get ⟨i, hi⟩).hex ++ ";") ∈ rl ∧
            bl.head? = Option.some
              (".sheet-rolltemplate-custom .sheet-crt-container.sheet-crt-btcolor-"
                ++ ([ColorDef.mk "red" "#FF0000"].get ⟨i, hi⟩).color ++ " a \x7b") ∧
            ("    --button-bg-color: "
                ++ ([ColorDef.mk "red" "#FF0000"].get ⟨i, hi⟩).hex ++ ";") ∈ bl) :=
  ⟨by decide, css_rules_per_color [ColorDef.mk "red" "#FF0000"] (by decide)⟩

/-! ### Lemmas about the dedent model -/

theorem splitLines_ne_nil (l : List Char) : splitLines l ≠ [] := by
  cases l with
  | nil => simp [splitLines]
  | cons c rest =>
    simp only [splitLines]
    by_cases hc : c = '\n'
    · simp [hc]
    · simp only [if_neg hc]
      cases h : splitLines rest <;> simp

theorem splitLines_no_newline (L : List Char) (h : ¬ '\n' ∈ L) :
    splitLines L = [L] := by
  induction L with
  | nil => rfl
  | cons c rest ih =>
    have hc : ¬ c = '\n' := fun hc => h (hc ▸ List.mem_cons_self c rest)
    have hr : ¬ '\n' ∈ rest := fun hr => h (List.mem_cons_of_mem c hr)
    simp only [splitLines, if_neg hc, ih hr]

theorem splitLines_cons_newline (rest : List Char) :
    splitLines ('\n' :: rest) = [] :: splitLines rest := by
  simp [splitLines]

theorem splitLines_cons_of_ne (c : Char) (rest l1 : List Char)
    (ls : List (List Char)) (hc : ¬ c = '\n') (h : splitLines rest = l1 :: ls) :
    splitLines (c :: rest) = (c :: l1) :: ls := by
  simp only [splitLines, if_neg hc, h]

theorem splitLines_append (X rest : List Char) :
    splitLines (X ++ '\n' :: rest) = splitLines X ++ splitLines rest := by
  induction X with
  | nil => simp [splitLines_cons_newline, splitLines]
  | cons c X ih =>
    by_cases hc : c = '\n'
    · subst hc
      rw [List.cons_append, splitLines_cons_newline, ih,
        splitLines_cons_newline, List.cons_append]
    · obtain ⟨h0, t0, heq⟩ : ∃ h0 t0, splitLines X = h0 :: t0 := by
        cases hX : splitLines X with
        | nil => exact absurd hX (splitLines_ne_nil X)
        | cons a b => exact ⟨a, b, rfl⟩
      rw [List.cons_append,
        splitLines_cons_of_ne c _ h0 (t0 ++ splitLines rest) hc
          (by rw [ih, heq, List.cons_append]),
        splitLines_cons_of_ne c X h0 t0 hc heq, List.cons_append]

theorem splitLines_line (L Y : List Char) (h : ¬ '\n' ∈ L) :
    splitLines (L ++ '\n' :: Y) = L :: splitLines Y := by
  rw [splitLines_append, splitLines_no_newline L h, List.cons_append,
    List.nil_append]

theorem joinLines_cons2 (a b : List Char) (ls : List (List Char)) :
    joinLines (a :: b :: ls) = a ++ '\n' :: joinLines (b :: ls) := rfl

theorem mem_joinLines (a : List Char) (ls : List (List Char)) (h : a ∈ ls) :
    a <:+: joinLines ls := by
  induction ls with
  | nil => cases h
  | cons b bs ih =>
    rcases List.mem_cons.mp h with rfl | h2
    · cases bs with
      | nil => exact ⟨[], [], by simp [joinLines]⟩
      | cons c cs =>
        exact ⟨[], '\n' :: joinLines (c :: cs), by simp [joinLines_cons2]⟩
    · cases bs with
      | nil => cases h2
      | cons c cs =>
        obtain ⟨u, v, huv⟩ := ih h2
        exact ⟨b ++ '\n' :: u, v, by simp [joinLines_cons2, ← huv]⟩

theorem lcp_pref_left : ∀ (a b : List Char), lcp a b <+: a := by
  intro a
  induction a with
  | nil => intro b; exact ⟨[], by simp [lcp]⟩
  | cons c as ih =>
    intro b
    cases b with
    | nil => exact ⟨c :: as, by simp [lcp]⟩
    | cons d bs =>
      by_cases hcd : c = d
      · subst hcd
        obtain ⟨t, ht⟩ := ih bs
        exact ⟨t, by simp [lcp, ht]⟩
      · exact ⟨c :: as, by simp [lcp, hcd]⟩

theorem lcp_pref_right : ∀ (a b : List Char), lcp a b <+: b := by
  intro a
  induction a with
  | nil => intro b; exact ⟨b, by simp [lcp]⟩
  | cons c as ih =>
    intro b
    cases b with
    | nil => exact ⟨[], by simp [lcp]⟩
    | cons d bs =>
      by_cases hcd : c = d
      · subst hcd
        obtain ⟨t, ht⟩ := ih bs
        exact ⟨t, by simp [lcp, ht]⟩
      · exact ⟨d :: bs, by simp [lcp, hcd]⟩

theorem foldl_lcp_pref_seed : ∀ (ls : List (List Char)) (a : List Char),
    ls.foldl lcp a <+: a := by
  intro ls
  induction ls with
  | nil => intro a; exact ⟨[], by simp⟩
  | cons x xs ih =>
    intro a
    exact (ih (lcp a x)).trans (lcp_pref_left a x)

theorem foldl_lcp_pref_mem : ∀ (ls : List (List Char)) (a b : List Char),
    b ∈ ls → ls.foldl lcp a <+: b := by
  intro ls
  induction ls with
  | nil => intro a b h; cases h
  | cons x xs ih =>
    intro a b h
    rcases List.mem_cons.mp h with rfl | h2
    · exact (foldl_lcp_pref_seed xs (lcp a b)).trans (lcp_pref_right a b)
    · exact ih (lcp a x) b h2

theorem takeWhile_pref (p : Char → Bool) (l : List Char) :
    l.takeWhile p <+: l := List.takeWhile_prefix p

theorem takeWhile_all (p : Char → Bool) (l : List Char) :
    (l.takeWhile p).all p = true := by
  induction l with
  | nil => rfl
  | cons c cs ih =>
    by_cases h : p c = true
    · simp [List.takeWhile_cons, h, ih]
    · simp [List.takeWhile_cons, h]

theorem marginOf_pref (lines : List (List Char)) (ln : List Char)
    (hmem : ln ∈ lines) (hnb : ln.all isPySpace = false) :
    marginOf lines <+: ln := by
  have hf : ln ∈ lines.filter (fun l => !(l.all isPySpace)) := by
    rw [List.mem_filter]
    exact ⟨hmem, by simp [hnb]⟩
  cases hflt : lines.filter (fun l => !(l.all isPySpace)) with
  | nil => rw [hflt] at hf; cases hf
  | cons a rest =>
    have h1 : (rest.foldl lcp a) <+: ln := by
      rw [hflt] at hf
      rcases List.mem_cons.mp hf with rfl | h2
      · exact foldl_lcp_pref_seed rest ln
      · exact foldl_lcp_pref_mem rest a ln h2
    have h2 : marginOf lines = (rest.foldl lcp a).takeWhile isMarginWs := by
      simp only [marginOf, hflt]
    rw [h2]
    exact (takeWhile_pref _ _).trans h1

theorem marginOf_ws (lines : List (List Char)) :
    (marginOf lines).all isMarginWs = true := by
  cases hflt : lines.filter (fun l => !(l.all isPySpace)) with
  | nil => simp [marginOf, hflt]
  | cons a rest => simp [marginOf, hflt, takeWhile_all]

theorem marginWs_pySpace (c : Char) (h : isMarginWs c = true) :
    isPySpace c = true := by
  simp only [isMarginWs, Bool.or_eq_true, decide_eq_true_eq] at h
  rcases h with rfl | rfl <;> rfl

theorem pref_takeWhile (p : Char → Bool) :
    ∀ (x l : List Char), x <+: l → x.all p = true → x <+: l.takeWhile p := by
  intro x
  induction x with
  | nil => intro l _ _; exact ⟨l.takeWhile p, by simp⟩
  | cons c cs ih =>
    intro l hx hall
    obtain ⟨t, ht⟩ := hx
    have hc : p c = true := by
      simp only [List.all_cons, Bool.and_eq_true] at hall
      exact hall.1
    have hcs : cs.all p = true := by
      simp only [List.all_cons, Bool.and_eq_true] at hall
      exact hall.2
    obtain ⟨u, hu⟩ := ih (cs ++ t) ⟨t, rfl⟩ hcs
    refine ⟨u, ?_⟩
    rw [← ht, List.cons_append, List.cons_append]
    simp [List.takeWhile_cons, hc, ← hu]

theorem dedent_keeps_sub (s u sub v : List Char)
    (hline : (u ++ (sub ++ v)) ∈ splitLines s)
    (hnb : (u ++ (sub ++ v)).all isPySpace = false)
    (hm : (marginOf (splitLines s)).length ≤ u.length) :
    sub <:+: pyDedentL s := by
  simp only [pyDedentL]
  have hmem2 := List.mem_map_of_mem
    (fun l => if l.all isPySpace then [] else
      l.drop (marginOf (splitLines s)).length) hline
  simp only [hnb, Bool.false_eq_true, if_false] at hmem2
  have hinf : sub <:+: (u ++ (sub ++ v)).drop (marginOf (splitLines s)).length := by
    rw [List.drop_append_eq_append_drop, Nat.sub_eq_zero_of_le hm, List.drop_zero]
    exact ⟨u.drop (marginOf (splitLines s)).length, v, by rw [List.append_assoc]⟩
  exact hinf.trans (mem_joinLines _ _ hmem2)

theorem pref_first_line : ∀ (x l : List Char), ¬ '\n' ∈ x → x <+: l →
    ∃ l1 ls, splitLines l = l1 :: ls ∧ x <+: l1 := by
  intro x
  induction x with
  | nil =>
    intro l _ _
    cases hsl : splitLines l with
    | nil => exact absurd hsl (splitLines_ne_nil l)
    | cons a b => exact ⟨a, b, rfl, ⟨a, by simp⟩⟩
  | cons c cs ih =>
    intro l hnl hpre
    obtain ⟨t, ht⟩ := hpre
    have hc : ¬ c = '\n' := fun h => hnl (h ▸ List.mem_cons_self _ _)
    have hcs : ¬ '\n' ∈ cs := fun h => hnl (List.mem_cons_of_mem _ h)
    obtain ⟨l1, ls, hsl, hp1⟩ := ih (cs ++ t) hcs ⟨t, rfl⟩
    refine ⟨c :: l1, ls, ?_, ?_⟩
    · rw [← ht, List.cons_append]
      exact splitLines_cons_of_ne c _ l1 ls hc hsl
    · obtain ⟨w, hw⟩ := hp1
      exact ⟨w, by simp [hw]⟩

theorem sub_in_line (sub : List Char) :
    ∀ (l : List Char), ¬ '\n' ∈ sub → sub <:+: l →
      ∃ ln, ln ∈ splitLines l ∧ sub <:+: ln := by
  intro l
  induction l with
  | nil =>
    intro hnl hin
    obtain ⟨u, v, huv⟩ := hin
    have hu : sub = [] := by
      rcases List.append_eq_nil.mp ((List.append_assoc u sub v).symm.trans huv) with
        ⟨h1, h2⟩
      exact (List.append_eq_nil.mp h2).1
    subst hu
    exact ⟨[], by simp [splitLines], ⟨[], [], rfl⟩⟩
  | cons c rest ih =>
    intro hnl hin
    obtain ⟨u, v, huv⟩ := hin
    cases u with
    | nil =>
      have hp : sub <+: c :: rest := ⟨v, by simpa using huv⟩
      obtain ⟨l1, ls, hsl, hp1⟩ := pref_first_line sub (c :: rest) hnl hp
      exact ⟨l1, by rw [hsl]; exact List.mem_cons_self _ _, hp1.isInfix⟩
    | cons c0 u0 =>
      have huv2 : c0 :: (u0 ++ sub ++ v) = c :: rest := by
        simpa using huv
      have hc0 : c0 = c := (List.cons_eq_cons.mp huv2).1
      have hrest : u0 ++ sub ++ v = rest := (List.cons_eq_cons.mp huv2).2
      obtain ⟨ln, hmem, hinf⟩ := ih hnl ⟨u0, v, hrest⟩
      by_cases hc : c = '\n'
      · subst hc
        rw [splitLines_cons_newline]
        exact ⟨ln, List.mem_cons_of_mem _ hmem, hinf⟩
      · obtain ⟨l1, ls, hsl⟩ : ∃ l1 ls, splitLines rest = l1 :: ls := by
          cases hX : splitLines rest with
          | nil => exact absurd hX (splitLines_ne_nil rest)
          | cons a b => exact ⟨a, b, rfl⟩
        rw [splitLines_cons_of_ne c rest l1 ls hc hsl]
        rw [hsl] at hmem
        rcases List.mem_cons.mp hmem with rfl | h2
        · obtain ⟨a, b, hab⟩ := hinf
          exact ⟨c :: ln, List.mem_cons_self _ _, ⟨c :: a, b, by simp [← hab]⟩⟩
        · exact ⟨ln, List.mem_cons_of_mem _ h2, hinf⟩

theorem dedent_keeps_sub_head (s : List Char) (c : Char) (cs : List Char)
    (hc : isPySpace c = false) (hnl : ¬ '\n' ∈ c :: cs)
    (hin : (c :: cs) <:+: s) : (c :: cs) <:+: pyDedentL s := by
  obtain ⟨ln, hmem, hinf⟩ := sub_in_line (c :: cs) s hnl hin
  obtain ⟨u, v, huv⟩ := hinf
  have huv2 : u ++ ((c :: cs) ++ v) = ln := by
    rw [← List.append_assoc]; exact huv
  have hnb : ln.all isPySpace = false := by
    cases hall : ln.all isPySpace with
    | false => rfl
    | true =>
      have hcln : c ∈ ln := by
        rw [← huv2]; simp
      have := List.all_eq_true.mp hall c hcln
      rw [hc] at this
      cases this
  have hmws := marginOf_ws (splitLines s)
  have hmpre := marginOf_pref (splitLines s) ln hmem hnb
  by_cases hlen : (marginOf (splitLines s)).length ≤ u.length
  · exact dedent_keeps_sub s u (c :: cs) v (by rw [huv2]; exact hmem)
      (by rw [huv2]; exact hnb) hlen
  · exfalso
    have hlt : u.length < (marginOf (splitLines s)).length :=
      Nat.lt_of_not_le hlen
    obtain ⟨t, ht⟩ := hmpre
    have h1 : ln.take (u.length + 1) = u ++ [c] := by
      rw [← huv2, List.take_append_eq_append_take,
        List.take_of_length_le (by omega)]
      have h5 : u.length + 1 - u.length = 1 := by omega
      rw [h5, List.cons_append, List.take_succ_cons, List.take_zero]
    have h2 : ln.take (u.length + 1)
        = (marginOf (splitLines s)).take (u.length + 1) := by
      rw [← ht, List.take_append_eq_append_take]
      have h6 : u.length + 1 - (marginOf (splitLines s)).length = 0 := by omega
      rw [h6, List.take_zero, List.append_nil]
    have hcP : c ∈ marginOf (splitLines s) := by
      apply List.mem_of_mem_take
      rw [← h2, h1]
      simp
    have h7 := marginWs_pySpace c (List.all_eq_true.mp hmws c hcP)
    rw [hc] at h7
    cases h7

/-! ### Decimal digits of auto-assigned identifiers -/

theorem digitChar_digit (m : Nat) (h : m < 10) :
    (Nat.digitChar m).isDigit = true := by
  interval_cases m <;> decide

theorem toDigitsCore_digits : ∀ (fuel n : Nat) (ds : List Char),
    (∀ c ∈ ds, c.isDigit = true) →
    ∀ c ∈ Nat.toDigitsCore 10 fuel n ds, c.isDigit = true := by
  intro fuel
  induction fuel with
  | zero =>
    intro n ds hds c hc
    exact hds c (by simpa [Nat.toDigitsCore] using hc)
  | succ fuel ih =>
    intro n ds hds c hc
    have hd : (Nat.digitChar (n % 10)).isDigit = true :=
      digitChar_digit _ (Nat.mod_lt n (by norm_num))
    have hds2 : ∀ x ∈ Nat.digitChar (n % 10) :: ds, x.isDigit = true := by
      intro x hx
      rcases List.mem_cons.mp hx with rfl | hx2
      · exact hd
      · exact hds x hx2
    by_cases h0 : n / 10 = 0
    · simp only [Nat.toDigitsCore, h0, if_pos] at hc
      exact hds2 c hc
    · simp only [Nat.toDigitsCore, h0, if_false] at hc
      exact ih (n / 10) _ hds2 c hc

theorem repr_digits (n : Nat) : ∀ c ∈ (toString n).data, c.isDigit = true := by
  intro c hc
  have h1 : (toString n).data = Nat.toDigitsCore 10 (n + 1) n [] := rfl
  rw [h1] at hc
  exact toDigitsCore_digits (n + 1) n [] (by intro x hx; cases hx) c hc

theorem digit_not_pyspace (c : Char) (h : c.isDigit = true) :
    isPySpace c = false := by
  cases hpy : isPySpace c with
  | false => rfl
  | true =>
    exfalso
    simp only [isPySpace, Bool.or_eq_true, decide_eq_true_eq] at hpy
    rcases hpy with ((((rfl | rfl) | rfl) | rfl) | rfl) | rfl <;>
      exact absurd h (by decide)

theorem newline_not_in_repr (n : Nat) : ¬ '\n' ∈ (toString n).data := by
  intro h
  exact absurd (repr_digits n '\n' h) (by decide)

/-! ### Containment in joined and dedented strings -/

theorem joinSep_cons2 (sep a b : String) (bs : List String) :
    joinSep sep (a :: b :: bs) = a ++ sep ++ joinSep sep (b :: bs) := rfl

theorem mem_joinSep (e sep : String) (l : List String) (h : e ∈ l) :
    e.data <:+: (joinSep sep l).data := by
  induction l with
  | nil => cases h
  | cons a as ih =>
    rcases List.mem_cons.mp h with rfl | h2
    · cases as with
      | nil => exact ⟨[], [], by simp [joinSep]⟩
      | cons b bs =>
        refine ⟨[], sep.data ++ (joinSep sep (b :: bs)).data, ?_⟩
        simp [joinSep_cons2, String.data_append, List.append_assoc]
    · cases as with
      | nil => cases h2
      | cons b bs =>
        obtain ⟨u, v, huv⟩ := ih h2
        refine ⟨a.data ++ sep.data ++ u, v, ?_⟩
        simp only [joinSep_cons2, String.data_append, List.append_assoc, ← huv]

theorem strIncl_pyDedent (p s : String) (c : Char) (cs : List Char)
    (hp : p.data = c :: cs) (hc : isPySpace c = false)
    (hnl : ¬ '\n' ∈ p.data) (hin : p.data <:+: s.data) :
    strIncl p (pyDedent s) := by
  show p.data <:+: (pyDedent s).data
  rw [hp] at hnl hin ⊢
  exact dedent_keeps_sub_head s.data c cs hc hnl hin

/-- The banner returned by `alert` carries its identifier in the
`attr_alert-` attribute name. -/
theorem alertBanner_has_id (title text level idStr : String)
    (hnl : ¬ '\n' ∈ idStr.data) :
    strIncl ("attr_alert-" ++ idStr) (alertBanner title text level idStr) := by
  apply strIncl_pyDedent _ _ 'a' ("ttr_alert-".data ++ idStr.data)
  · rfl
  · rfl
  · intro hmem
    rw [show ("attr_alert-" ++ idStr).data
        = 'a' :: ("ttr_alert-".data ++ idStr.data) from rfl] at hmem
    rcases List.mem_cons.mp hmem with h | h
    · exact absurd h (by decide)
    · rcases List.mem_append.mp h with h2 | h2
      · exact absurd h2 (by decide)
      · exact hnl h2
  · have hline1 : ("attr_alert-" ++ idStr).data <:+:
        ("        <input type=\"hidden\" class=\"alert-hidder\" name=\"attr_alert-"
          ++ idStr ++ "\" value=\"0\"/>").data :=
      ⟨"        <input type=\"hidden\" class=\"alert-hidder\" name=\"".data,
        "\" value=\"0\"/>".data, rfl⟩
    refine hline1.trans (mem_joinSep _ "\n" _ ?_)
    simp [alertBannerLines]

/-! ### Claim C3: sequential auto-assigned identifiers -/

theorem alert_ok_auto (k : Nat) (strs : List String) (title text level : String)
    (hl : level ∈ validLevels) :
    alert ⟨k, strs, false⟩ title text level Option.none
      = (Except.ok (alertBanner title text level (toString k)),
          ⟨k + 1, strs, false⟩) := by
  simp [alert, hl]

theorem run_auto_general : ∀ (cs : List AlertCall) (k : Nat) (strs : List String),
    (∀ c ∈ cs, c.ID = Option.none ∧ c.level ∈ validLevels) →
    ∃ ps, runAlerts ⟨k, strs, false⟩ cs
        = Option.some (ps, ⟨k + cs.length, strs, false⟩) ∧
      ps.map Prod.fst = (List.range' k cs.length).map (fun n => toString n) ∧
      ∀ (i : Nat) (hi : i < ps.length),
        (ps.get ⟨i, hi⟩).1 = toString (k + i) ∧
        strIncl ("attr_alert-" ++ toString (k + i)) (ps.get ⟨i, hi⟩).2 := by
  intro cs
  induction cs with
  | nil =>
    intro k strs _
    exact ⟨[], by simp [runAlerts], by simp, fun i hi => absurd hi (by simp)⟩
  | cons c cs ih =>
    intro k strs h
    obtain ⟨hid, hlv⟩ := h c (List.mem_cons_self c cs)
    obtain ⟨ps, hrun, hmap, hidx⟩ :=
      ih (k + 1) strs (fun x hx => h x (List.mem_cons_of_mem c hx))
    have ha := alert_ok_auto k strs c.title c.text c.level hlv
    refine ⟨(assignedId ⟨k, strs, false⟩ c,
        alertBanner c.title c.text c.level (toString k)) :: ps, ?_, ?_, ?_⟩
    · have hlen : k + 1 + cs.length = k + (c :: cs).length := by
        simp [List.length_cons]
        omega
      simp only [runAlerts, hid, ha, hrun, hlen]
    · simp only [List.map_cons, assignedId, hid, hmap, List.length_cons,
        List.range'_succ]
    · intro i hi
      cases i with
      | zero =>
        refine ⟨by simp [assignedId, hid], ?_⟩
        have hb := alertBanner_has_id c.title c.text c.level (toString k)
          (newline_not_in_repr k)
        simpa using hb
      | succ j =>
        have hj : j < ps.length := by simpa using hi
        obtain ⟨h1, h2⟩ := hidx j hj
        have hkj : k + 1 + j = k + (j + 1) := by omega
        rw [hkj] at h1 h2
        exact ⟨h1, h2⟩

/-- Claim C3: starting from the initial registry state, running any
sequence of `alert` calls with valid levels and no explicit ID succeeds
and assigns the sequential integer identifiers 0, 1, ..., N-1 in
order, the i-th banner carrying `attr_alert-i`. -/
theorem alerts_sequential_ids (cs : List AlertCall)
    (h : ∀ c ∈ cs, c.ID = Option.none ∧ c.level ∈ validLevels) :
    ∃ ps, runAlerts initAlertState cs
        = Option.some (ps, ⟨cs.length, [], false⟩) ∧
      ps.map Prod.fst = (List.range cs.length).map (fun n => toString n) ∧
      ∀ (i : Nat) (hi : i < ps.length),
        (ps.get ⟨i, hi⟩).1 = toString i ∧
        strIncl ("attr_alert-" ++ toString i) (ps.get ⟨i, hi⟩).2 := by
  obtain ⟨ps, h1, h2, h3⟩ := run_auto_general cs 0 [] h
  refine ⟨ps, ?_, ?_, ?_⟩
  · simpa [initAlertState] using h1
  · rw [List.range_eq_range']
    exact h2
  · intro i hi
    obtain ⟨ha, hb⟩ := h3 i hi
    exact ⟨by simpa using ha, by simpa using hb⟩

/-- Witness for `alerts_sequential_ids` on two concrete calls. -/
theorem alerts_sequential_ids_witness :
    (∀ c ∈ [AlertCall.mk "t1" "x1" "info" Option.none,
        AlertCall.mk "t2" "x2" "warning" Option.none],
      c.ID = Option.none ∧ c.level ∈ validLevels) ∧
    (∃ ps, runAlerts initAlertState
          [AlertCall.mk "t1" "x1" "info" Option.none,
            AlertCall.mk "t2" "x2" "warning" Option.none]
        = Option.some (ps,
            ⟨[AlertCall.mk "t1" "x1" "info" Option.none,
              AlertCall.mk "t2" "x2" "warning" Option.none].length, [], false⟩) ∧
      ps.map Prod.fst =
        (List.range [AlertCall.mk "t1" "x1" "info" Option.none,
          AlertCall.mk "t2" "x2" "warning" Option.none].length).map
          (fun n => toString n) ∧
      ∀ (i : Nat) (hi : i < ps.length),
        (ps.get ⟨i, hi⟩).1 = toString i ∧
        strIncl ("attr_alert-" ++ toString i) (ps.get ⟨i, hi⟩).2) :=
  ⟨by decide,
    alerts_sequential_ids
      [AlertCall.mk "t1" "x1" "info" Option.none,
        AlertCall.mk "t2" "x2" "warning" Option.none] (by decide)⟩

/-! ### Claim C4: the disable fragment lists the assigned identifiers -/

theorem append_singleton_perm (X Y : List String) (a : String) :
    ((X ++ [a]) ++ Y).Perm ((X ++ Y) ++ [a]) := by
  rw [List.append_assoc, List.append_assoc]
  exact List.Perm.append_left X List.perm_append_comm

theorem alert_ok_entries (s : AlertState) (c : AlertCall) (b : String)
    (s1 : AlertState)
    (h : alert s c.title c.text c.level c.ID = (Except.ok b, s1)) :
    (alertEntries s1).Perm (alertEntries s ++ [assignedId s c]) := by
  by_cases hl : c.level ∈ validLevels
  · by_cases hd : s.has_disable_been_called
    · simp [alert, hl, hd] at h
    · cases hID : c.ID with
      | none =>
        rw [hID] at h
        have hs1 : s1 = ⟨s.numid + 1, s.strid, false⟩ := by
          simp [alert, hl, hd] at h
          exact h.2.symm
        subst hs1
        simp only [alertEntries, assignedId, hID, List.range_succ,
          List.map_append, List.map_cons, List.map_nil]
        exact append_singleton_perm _ _ _
      | some i =>
        rw [hID] at h
        have hs1 : s1 = ⟨s.numid, s.strid ++ [i], false⟩ := by
          simp [alert, hl, hd] at h
          exact h.2.symm
        subst hs1
        simp only [alertEntries, assignedId, hID]
        rw [← List.append_assoc]
  · simp [alert, hl] at h

theorem run_entries_perm : ∀ (calls : List AlertCall) (s : AlertState)
    (ps : List (String × String)) (s2 : AlertState),
    runAlerts s calls = Option.some (ps, s2) →
    (alertEntries s2).Perm (alertEntries s ++ ps.map Prod.fst) := by
  intro calls
  induction calls with
  | nil =>
    intro s ps s2 h
    simp only [runAlerts, Option.some.injEq, Prod.mk.injEq] at h
    obtain ⟨h1, h2⟩ := h
    subst h2
    rw [← h1]
    simp
  | cons c cs ih =>
    intro s ps s2 h
    cases halert : alert s c.title c.text c.level c.ID with
    | mk r s1 =>
      cases r with
      | ok b =>
        cases hrest : runAlerts s1 cs with
        | none =>
          rw [runAlerts, halert] at h
          simp only [hrest] at h
          exact Option.noConfusion h
        | some p2 =>
          obtain ⟨ps2, s3⟩ := p2
          rw [runAlerts, halert] at h
          simp only [hrest, Option.some.injEq, Prod.mk.injEq] at h
          obtain ⟨hps, hs2⟩ := h
          subst hs2
          have hperm1 := alert_ok_entries s c b s1 halert
          have hperm2 := ih s1 ps2 s3 hrest
          have h3 : (alertEntries s ++ [assignedId s c]) ++ ps2.map Prod.fst
              = alertEntries s ++ ((assignedId s c, b) :: ps2).map Prod.fst := by
            simp [List.append_assoc]
          have hperm3 : (alertEntries s3).Perm
              ((alertEntries s ++ [assignedId s c]) ++ ps2.map Prod.fst) :=
            hperm2.trans (hperm1.append_right (ps2.map Prod.fst))
          rw [← hps, ← h3]
          exact hperm3
      | error e =>
        rw [runAlerts, halert] at h
        simp only [] at h
        exact Option.noConfusion h

theorem disable_contains_marker (s : AlertState) (marker : String)
    (hnl : ¬ '\n' ∈ marker.data) :
    strIncl ("\"" ++ marker ++ "\": 1") (disable_old_alerts s marker).1 := by
  apply strIncl_pyDedent _ _ '"' (marker.data ++ "\": 1".data)
  · rfl
  · rfl
  · intro hmem
    rw [show ("\"" ++ marker ++ "\": 1").data
        = '"' :: (marker.data ++ "\": 1".data) from rfl] at hmem
    rcases List.mem_cons.mp hmem with h | h
    · exact absurd h (by decide)
    · rcases List.mem_append.mp h with h2 | h2
      · exact hnl h2
      · exact absurd h2 (by decide)
  · refine ⟨"        setAttrs(\x7b\n            ".data,
      ",\n            ".data
        ++ ((joinSep (",\n" ++ "            ")
            ((alertEntries s).map (fun i => "\"alert-" ++ i ++ "\": 1"))).data
          ++ "\n        \x7d); ".data), ?_⟩
    simp only [String.data_append, List.append_assoc]
    rfl

theorem disable_contains_entry (s : AlertState) (marker id : String)
    (hid : id ∈ alertEntries s) (hnl : ¬ '\n' ∈ id.data) :
    strIncl ("\"alert-" ++ id ++ "\": 1") (disable_old_alerts s marker).1 := by
  apply strIncl_pyDedent _ _ '"' ("alert-".data ++ (id.data ++ "\": 1".data))
  · rfl
  · rfl
  · intro hmem
    rw [show ("\"alert-" ++ id ++ "\": 1").data
        = '"' :: ("alert-".data ++ (id.data ++ "\": 1".data)) from rfl] at hmem
    rcases List.mem_cons.mp hmem with h | h
    · exact absurd h (by decide)
    · rcases List.mem_append.mp h with h2 | h2
      · exact absurd h2 (by decide)
      · rcases List.mem_append.mp h2 with h3 | h3
        · exact hnl h3
        · exact absurd h3 (by decide)
  · have h1 : ("\"alert-" ++ id ++ "\": 1").data <:+:
        (joinSep (",\n" ++ "            ")
          ((alertEntries s).map (fun i => "\"alert-" ++ i ++ "\": 1"))).data :=
      mem_joinSep _ _ _
        (List.mem_map_of_mem (fun i => "\"alert-" ++ i ++ "\": 1") hid)
    exact h1.trans
      ⟨(("        setAttrs(\x7b\n            \"" ++ marker).data
          ++ "\": 1,\n            ".data), "\n        \x7d); ".data, rfl⟩

/-- Claim C4, counterexample: two successful calls with the same
explicit identifier "x" make the fragment list `"alert-x": 1` twice,
so not every assigned identifier is listed exactly once. -/
theorem disable_duplicate_id_cex :
    (runAlerts initAlertState
        [AlertCall.mk "a" "b" "info" (Option.some "x"),
          AlertCall.mk "c" "d" "info" (Option.some "x")]).map
        (fun p => (p.1.map Prod.fst, p.2))
      = Option.some (["x", "x"], ⟨0, ["x", "x"], false⟩) ∧
    (alertEntries ⟨0, ["x", "x"], false⟩).count "x" = 2 ∧
    (disable_old_alerts ⟨0, ["x", "x"], false⟩ "mk").1
      = "setAttrs(\x7b\n    \"mk\": 1,\n    \"alert-x\": 1,\n    \"alert-x\": 1\n\x7d); " :=
  ⟨rfl, rfl, rfl⟩

/-- Claim C4, amended: after any sequence of successful `alert` calls
from the initial state, the identifier list of the fragment returned by
`disable_old_alerts(marker)` is a permutation of the assigned
identifiers (auto identifiers rendered in decimal), so each identifier
is listed once per call that assigned it — exactly once for all of them
when the assigned identifiers are pairwise distinct — and the fragment
carries the marker attribute entry and one `"alert-ID": 1` entry for
each assigned identifier. -/
theorem disable_lists_assigned_ids (calls : List AlertCall)
    (ps : List (String × String)) (s2 : AlertState) (marker : String)
    (hrun : runAlerts initAlertState calls = Option.some (ps, s2)) :
    (alertEntries s2).Perm (ps.map Prod.fst) ∧
    ((ps.map Prod.fst).Nodup →
      ∀ id ∈ ps.map Prod.fst, (alertEntries s2).count id = 1) ∧
    (¬ '\n' ∈ marker.data →
      strIncl ("\"" ++ marker ++ "\": 1") (disable_old_alerts s2 marker).1) ∧
    (∀ id ∈ ps.map Prod.fst, ¬ '\n' ∈ id.data →
      strIncl ("\"alert-" ++ id ++ "\": 1") (disable_old_alerts s2 marker).1) := by
  have hperm : (alertEntries s2).Perm (ps.map Prod.fst) := by
    have h := run_entries_perm calls initAlertState ps s2 hrun
    simpa [initAlertState, alertEntries] using h
  refine ⟨hperm, ?_, ?_, ?_⟩
  · intro hnd id hid
    rw [hperm.count_eq]
    exact List.count_eq_one_of_mem hnd hid
  · intro hnl
    exact disable_contains_marker s2 marker hnl
  · intro id hid hnl
    exact disable_contains_entry s2 marker id (hperm.mem_iff.mpr hid) hnl

/-- Witness for `disable_lists_assigned_ids` on a concrete run mixing
an auto-assigned and an explicit identifier. -/
theorem disable_lists_assigned_ids_witness :
    runAlerts initAlertState
        [AlertCall.mk "a" "b" "info" Option.none,
          AlertCall.mk "c" "d" "info" (Option.some "y")]
      = Option.some ([("0", alertBanner "a" "b" "info" "0"),
          ("y", alertBanner "c" "d" "info" "y")], ⟨1, ["y"], false⟩) ∧
    ((alertEntries ⟨1, ["y"], false⟩).Perm
        ([("0", alertBanner "a" "b" "info" "0"),
          ("y", alertBanner "c" "d" "info" "y")].map Prod.fst) ∧
      (([("0", alertBanner "a" "b" "info" "0"),
          ("y", alertBanner "c" "d" "info" "y")].map Prod.fst).Nodup →
        ∀ id ∈ [("0", alertBanner "a" "b" "info" "0"),
            ("y", alertBanner "c" "d" "info" "y")].map Prod.fst,
          (alertEntries ⟨1, ["y"], false⟩).count id = 1) ∧
      (¬ '\n' ∈ "mk".data →
        strIncl ("\"" ++ "mk" ++ "\": 1")
          (disable_old_alerts ⟨1, ["y"], false⟩ "mk").1) ∧
      (∀ id ∈ [("0", alertBanner "a" "b" "info" "0"),
          ("y", alertBanner "c" "d" "info" "y")].map Prod.fst,
        ¬ '\n' ∈ id.data →
        strIncl ("\"alert-" ++ id ++ "\": 1")
          (disable_old_alerts ⟨1, ["y"], false⟩ "mk").1)) :=
  ⟨rfl, disable_lists_assigned_ids
    [AlertCall.mk "a" "b" "info" Option.none,
      AlertCall.mk "c" "d" "info" (Option.some "y")]
    [("0", alertBanner "a" "b" "info" "0"), ("y", alertBanner "c" "d" "info" "y")]
    ⟨1, ["y"], false⟩ "mk" rfl⟩

/-! ### Claim C8: banner contents of a successful call -/

theorem pyReplaceChar_of_not_mem (c : Char) (rep : List Char) :
    ∀ (l : List Char), ¬ c ∈ l → pyReplaceChar c rep l = l := by
  intro l
  induction l with
  | nil => intro _; rfl
  | cons a as ih =>
    intro h
    have ha : ¬ a = c := fun he => h (he ▸ List.mem_cons_self a as)
    have has : ¬ c ∈ as := fun hm => h (List.mem_cons_of_mem a hm)
    simp [pyReplaceChar, ha, ih has]

theorem all_false_of_mem (p : Char → Bool) (l : List Char) (c : Char)
    (hc : c ∈ l) (hpc : p c = false) : l.all p = false := by
  cases hall : l.all p with
  | false => rfl
  | true => exact absurd (List.all_eq_true.mp hall c hc) (by simp [hpc])

theorem dedent_keeps_sub_at (s w u sub v : List Char)
    (hline : (u ++ (sub ++ v)) ∈ splitLines s)
    (hnb : (u ++ (sub ++ v)).all isPySpace = false)
    (hw : w ∈ splitLines s) (hwnb : w.all isPySpace = false)
    (hwk : (w.takeWhile isMarginWs).length ≤ u.length) :
    sub <:+: pyDedentL s := by
  apply dedent_keeps_sub s u sub v hline hnb
  have h1 := marginOf_pref (splitLines s) w hw hwnb
  have h2 := marginOf_ws (splitLines s)
  have h3 : marginOf (splitLines s) <+: w.takeWhile isMarginWs :=
    pref_takeWhile isMarginWs _ w h1 h2
  exact le_trans h3.length_le hwk

theorem mem_splitLines_joinSep (e : String) (l : List String) (hmem : e ∈ l)
    (hnl : ¬ '\n' ∈ e.data) :
    e.data ∈ splitLines (joinSep "\n" l).data := by
  induction l with
  | nil => cases hmem
  | cons a as ih =>
    rcases List.mem_cons.mp hmem with rfl | h2
    · cases as with
      | nil =>
        rw [show joinSep "\n" [e] = e from rfl, splitLines_no_newline e.data hnl]
        exact List.mem_cons_self _ _
      | cons b bs =>
        have hform : (joinSep "\n" (e :: b :: bs)).data
            = e.data ++ '\n' :: (joinSep "\n" (b :: bs)).data := by
          rw [joinSep_cons2]
          simp [String.data_append, List.append_assoc]
        rw [hform, splitLines_line _ _ hnl]
        exact List.mem_cons_self _ _
    · cases as with
      | nil => cases h2
      | cons b bs =>
        have hform : (joinSep "\n" (a :: b :: bs)).data
            = a.data ++ '\n' :: (joinSep "\n" (b :: bs)).data := by
          rw [joinSep_cons2]
          simp [String.data_append, List.append_assoc]
        rw [hform, splitLines_append]
        exact List.mem_append_right _ (ih h2)

theorem alertBanner_unfold (title text level idStr : String)
    (htext : ¬ '\n' ∈ text.data) :
    alertBanner title text level idStr
      = pyDedent (joinSep "\n" (alertBannerLines title text level idStr)) := by
  show pyDedent (joinSep "\n" (alertBannerLines title
    (String.mk (pyReplaceChar '\n' ("\n" ++ "                ").data text.data))
    level idStr)) = _
  rw [pyReplaceChar_of_not_mem '\n' _ text.data htext]

theorem line1_no_newline (idStr : String) (hid : ¬ '\n' ∈ idStr.data) :
    ¬ '\n' ∈ ("        <input type=\"hidden\" class=\"alert-hidder\" name=\"attr_alert-"
      ++ idStr ++ "\" value=\"0\"/>").data := by
  intro hmem
  rw [show ("        <input type=\"hidden\" class=\"alert-hidder\" name=\"attr_alert-"
      ++ idStr ++ "\" value=\"0\"/>").data
      = "        <input type=\"hidden\" class=\"alert-hidder\" name=\"attr_alert-".data
        ++ (idStr.data ++ "\" value=\"0\"/>".data) from rfl] at hmem
  rcases List.mem_append.mp hmem with h | h
  · exact absurd h (by decide)
  · rcases List.mem_append.mp h with h2 | h2
    · exact hid h2
    · exact absurd h2 (by decide)

theorem line1_mem_split (title text level idStr : String)
    (hid : ¬ '\n' ∈ idStr.data) :
    ("        <input type=\"hidden\" class=\"alert-hidder\" name=\"attr_alert-"
        ++ idStr ++ "\" value=\"0\"/>").data
      ∈ splitLines (joinSep "\n" (alertBannerLines title text level idStr)).data :=
  mem_splitLines_joinSep _ _ (by simp [alertBannerLines])
    (line1_no_newline idStr hid)

theorem line1_not_blank (idStr : String) :
    (("        <input type=\"hidden\" class=\"alert-hidder\" name=\"attr_alert-"
      ++ idStr ++ "\" value=\"0\"/>").data).all isPySpace = false := by
  apply all_false_of_mem _ _ '<'
  · rw [show ("        <input type=\"hidden\" class=\"alert-hidder\" name=\"attr_alert-"
        ++ idStr ++ "\" value=\"0\"/>").data
        = "        <input type=\"hidden\" class=\"alert-hidder\" name=\"attr_alert-".data
          ++ (idStr.data ++ "\" value=\"0\"/>".data) from rfl]
    exact List.mem_append.mpr (Or.inl (by decide))
  · rfl

theorem line1_takeWhile (idStr : String) :
    ((("        <input type=\"hidden\" class=\"alert-hidder\" name=\"attr_alert-"
      ++ idStr ++ "\" value=\"0\"/>").data).takeWhile isMarginWs).length = 8 := by
  rw [show (("        <input type=\"hidden\" class=\"alert-hidder\" name=\"attr_alert-"
      ++ idStr ++ "\" value=\"0\"/>").data).takeWhile isMarginWs
      = "        ".data from rfl]
  rfl

theorem alertBanner_has_title (title text level idStr : String)
    (hlv : level ∈ validLevels) (htitle : ¬ '\n' ∈ title.data)
    (htext : ¬ '\n' ∈ text.data) (hid : ¬ '\n' ∈ idStr.data) :
    strIncl title (alertBanner title text level idStr) := by
  rw [alertBanner_unfold title text level idStr htext]
  rcases (show level = "info" ∨ level = "warning" by
    simpa [validLevels] using hlv) with rfl | rfl
  · apply dedent_keeps_sub_at
      (joinSep "\n" (alertBannerLines title text "info" idStr)).data
      ("        <input type=\"hidden\" class=\"alert-hidder\" name=\"attr_alert-"
        ++ idStr ++ "\" value=\"0\"/>").data
      ("                <h3> " ++ pyTitle "info" ++ " - ").data
      title.data "</h3>".data
    · exact mem_splitLines_joinSep
        ("                <h3> " ++ pyTitle "info" ++ " - " ++ title ++ "</h3>")
        _ (by simp [alertBannerLines])
        (by
          intro hmem
          rw [show ("                <h3> " ++ pyTitle "info" ++ " - " ++ title
              ++ "</h3>").data
              = ("                <h3> " ++ pyTitle "info" ++ " - ").data
                ++ (title.data ++ "</h3>".data) from rfl] at hmem
          rcases List.mem_append.mp hmem with h | h
          · exact absurd h (by decide)
          · rcases List.mem_append.mp h with h2 | h2
            · exact htitle h2
            · exact absurd h2 (by decide))
    · exact all_false_of_mem _ _ '<' (List.mem_append.mpr (Or.inl (by decide))) rfl
    · exact line1_mem_split title text "info" idStr hid
    · exact line1_not_blank idStr
    · rw [line1_takeWhile idStr]
      decide
  · apply dedent_keeps_sub_at
      (joinSep "\n" (alertBannerLines title text "warning" idStr)).data
      ("        <input type=\"hidden\" class=\"alert-hidder\" name=\"attr_alert-"
        ++ idStr ++ "\" value=\"0\"/>").data
      ("                <h3> " ++ pyTitle "warning" ++ " - ").data
      title.data "</h3>".data
    · exact mem_splitLines_joinSep
        ("                <h3> " ++ pyTitle "warning" ++ " - " ++ title ++ "</h3>")
        _ (by simp [alertBannerLines])
        (by
          intro hmem
          rw [show ("                <h3> " ++ pyTitle "warning" ++ " - " ++ title
              ++ "</h3>").data
              = ("                <h3> " ++ pyTitle "warning" ++ " - ").data
                ++ (title.data ++ "</h3>".data) from rfl] at hmem
          rcases List.mem_append.mp hmem with h | h
          · exact absurd h (by decide)
          · rcases List.mem_append.mp h with h2 | h2
            · exact htitle h2
            · exact absurd h2 (by decide))
    · exact all_false_of_mem _ _ '<' (List.mem_append.mpr (Or.inl (by decide))) rfl
    · exact line1_mem_split title text "warning" idStr hid
    · exact line1_not_blank idStr
    · rw [line1_takeWhile idStr]
      decide

theorem alertBanner_has_text (title text level idStr : String)
    (htext : ¬ '\n' ∈ text.data) (hid : ¬ '\n' ∈ idStr.data)
    (hnw : text.data.all isPySpace = false) :
    strIncl text (alertBanner title text level idStr) := by
  rw [alertBanner_unfold title text level idStr htext]
  obtain ⟨c, hc, hpc⟩ : ∃ c ∈ text.data, isPySpace c = false := by
    by_contra hcon
    push_neg at hcon
    have hall : text.data.all isPySpace = true := by
      apply List.all_eq_true.mpr
      intro c hc
      cases hpc : isPySpace c with
      | true => rfl
      | false => exact absurd hpc (hcon c hc)
    rw [hall] at hnw
    cases hnw
  apply dedent_keeps_sub_at
    (joinSep "\n" (alertBannerLines title text level idStr)).data
    ("        <input type=\"hidden\" class=\"alert-hidder\" name=\"attr_alert-"
      ++ idStr ++ "\" value=\"0\"/>").data
    "                ".data text.data []
  · rw [List.append_nil]
    exact mem_splitLines_joinSep ("                " ++ text) _
      (by simp [alertBannerLines])
      (by
        intro hmem
        rw [show ("                " ++ text).data
            = "                ".data ++ text.data from rfl] at hmem
        rcases List.mem_append.mp hmem with h | h
        · exact absurd h (by decide)
        · exact htext h)
  · apply all_false_of_mem _ _ c _ hpc
    exact List.mem_append.mpr (Or.inr (List.mem_append.mpr (Or.inl hc)))
  · exact line1_mem_split title text level idStr hid
  · exact line1_not_blank idStr
  · rw [line1_takeWhile idStr]
    decide

theorem alertBanner_has_input (title text level idStr : String)
    (hid : ¬ '\n' ∈ idStr.data) :
    strIncl ("<input type=\"hidden\" class=\"alert-hidder\" name=\"attr_alert-"
      ++ idStr ++ "\" value=\"0\"/>") (alertBanner title text level idStr) := by
  apply strIncl_pyDedent _ _ '<'
    ("input type=\"hidden\" class=\"alert-hidder\" name=\"attr_alert-".data
      ++ (idStr.data ++ "\" value=\"0\"/>".data))
  · rfl
  · rfl
  · intro hmem
    rw [show ("<input type=\"hidden\" class=\"alert-hidder\" name=\"attr_alert-"
        ++ idStr ++ "\" value=\"0\"/>").data
        = '<' :: ("input type=\"hidden\" class=\"alert-hidder\" name=\"attr_alert-".data
          ++ (idStr.data ++ "\" value=\"0\"/>".data)) from rfl] at hmem
    rcases List.mem_cons.mp hmem with h | h
    · exact absurd h (by decide)
    · rcases List.mem_append.mp h with h2 | h2
      · exact absurd h2 (by decide)
      · rcases List.mem_append.mp h2 with h3 | h3
        · exact hid h3
        · exact absurd h3 (by decide)
  · have hsfx : ("<input type=\"hidden\" class=\"alert-hidder\" name=\"attr_alert-"
        ++ idStr ++ "\" value=\"0\"/>").data <:+
        ("        <input type=\"hidden\" class=\"alert-hidder\" name=\"attr_alert-"
          ++ idStr ++ "\" value=\"0\"/>").data :=
      ⟨"        ".data, rfl⟩
    exact hsfx.isInfix.trans
      (mem_joinSep _ "\n" _ (by simp [alertBannerLines]))

set_option maxRecDepth 16384 in
/-- Claim C8, counterexample: for a text containing a newline the
returned banner re-indents the continuation line, so it does not
contain the given text verbatim. -/
theorem alert_text_newline_cex :
    (alert initAlertState "T" "a\nb" "info" Option.none).1
        = Except.ok (alertBanner "T" "a\nb" "info" "0") ∧
      ¬ strIncl "a\nb" (alertBanner "T" "a\nb" "info" "0") :=
  ⟨rfl, by decide⟩

/-- Claim C8, amended: for every state with the guard unset and every
valid level, a call to `alert` succeeds and returns a banner that
contains the given title, the given text (verbatim when the title, the
text and any explicit ID are free of newlines, and the text has at
least one non-whitespace character; a text with newlines is re-indented
and so not contained verbatim), and the hidden input element whose
attribute name embeds the banner's assigned identifier. -/
theorem alert_success_banner (s : AlertState) (title text level : String)
    (ID : Option String) (hd : s.has_disable_been_called = false)
    (hlv : level ∈ validLevels) (htitle : ¬ '\n' ∈ title.data)
    (htext : ¬ '\n' ∈ text.data)
    (hID : ∀ i, ID = Option.some i → ¬ '\n' ∈ i.data) :
    (alert s title text level ID).1
        = Except.ok (alertBanner title text level
            (assignedId s ⟨title, text, level, ID⟩)) ∧
      strIncl title (alertBanner title text level
        (assignedId s ⟨title, text, level, ID⟩)) ∧
      (text.data.all isPySpace = false →
        strIncl text (alertBanner title text level
          (assignedId s ⟨title, text, level, ID⟩))) ∧
      strIncl ("<input type=\"hidden\" class=\"alert-hidder\" name=\"attr_alert-"
          ++ assignedId s ⟨title, text, level, ID⟩ ++ "\" value=\"0\"/>")
        (alertBanner title text level
          (assignedId s ⟨title, text, level, ID⟩)) := by
  have hidnl : ¬ '\n' ∈ (assignedId s ⟨title, text, level, ID⟩).data := by
    cases hI : ID with
    | none => simpa [assignedId, hI] using newline_not_in_repr s.numid
    | some i =>
      simp only [assignedId, hI]
      exact hID i hI
  refine ⟨?_, alertBanner_has_title _ _ _ _ hlv htitle htext hidnl,
    fun h => alertBanner_has_text _ _ _ _ htext hidnl h,
    alertBanner_has_input _ _ _ _ hidnl⟩
  cases hI : ID with
  | none => simp [alert, hlv, hd, assignedId, hI]
  | some i => simp [alert, hlv, hd, assignedId, hI]

/-- Witness for `alert_success_banner` at a concrete call. -/
theorem alert_success_banner_witness :
    (initAlertState.has_disable_been_called = false ∧
      "info" ∈ validLevels ∧ ¬ '\n' ∈ "T".data ∧ ¬ '\n' ∈ "body".data) ∧
    ((alert initAlertState "T" "body" "info" Option.none).1
        = Except.ok (alertBanner "T" "body" "info"
            (assignedId initAlertState ⟨"T", "body", "info", Option.none⟩)) ∧
      strIncl "T" (alertBanner "T" "body" "info"
        (assignedId initAlertState ⟨"T", "body", "info", Option.none⟩)) ∧
      ("body".data.all isPySpace = false →
        strIncl "body" (alertBanner "T" "body" "info"
          (assignedId initAlertState ⟨"T", "body", "info", Option.none⟩))) ∧
      strIncl ("<input type=\"hidden\" class=\"alert-hidder\" name=\"attr_alert-"
          ++ assignedId initAlertState ⟨"T", "body", "info", Option.none⟩
          ++ "\" value=\"0\"/>")
        (alertBanner "T" "body" "info"
          (assignedId initAlertState ⟨"T", "body", "info", Option.none⟩))) :=
  ⟨⟨rfl, by decide, by decide, by decide⟩,
    alert_success_banner initAlertState "T" "body" "info" Option.none rfl
      (by decide) (by decide) (by decide) (fun i h => Option.noConfusion h)⟩
